import Mathlib

/-!
# Verification of the risu-cli sync/encryption core

Shallow embedding of the sync and encryption engine of a local-first note
application (Rust sources: `src/db.rs`, `src/crypto.rs`, `src/sync.rs`,
`src/main.rs`).  The embedded SQLite tables are modelled as association
lists, timestamps as strings under lexicographic order (SQLite TEXT
comparison), and fallible operations return `Except`/`Option`.
-/

namespace Risu

/-! ## Association-list primitives

`notes` and `kv_store` are SQL tables keyed by a TEXT primary key.  We model
each table as an association list.  `alGet` is `SELECT ... WHERE key = ?`
(first match), `alSet` is `INSERT OR REPLACE` / upsert (replace in place if
the key is present, append otherwise), `alUpdate` is `UPDATE ... WHERE key = ?`
and `alDel` is `DELETE ... WHERE key = ?`. -/

def alGet (k : String) : List (String × α) → Option α
  | [] => none
  | (k', v) :: rest => if k' = k then some v else alGet k rest

def alSet (k : String) (v : α) : List (String × α) → List (String × α)
  | [] => [(k, v)]
  | (k', v') :: rest => if k' = k then (k, v) :: rest else (k', v') :: alSet k v rest

def alUpdate (k : String) (f : α → α) (l : List (String × α)) : List (String × α) :=
  l.map (fun p => if p.1 = k then (p.1, f p.2) else p)

def alDel (k : String) (l : List (String × α)) : List (String × α) :=
  l.filter (fun p => p.1 ≠ k)

@[simp] theorem alGet_alSet_self (k : String) (v : α) (l : List (String × α)) :
    alGet k (alSet k v l) = some v := by
  induction l with
  | nil => simp [alGet, alSet]
  | cons p rest ih =>
    obtain ⟨k', v'⟩ := p
    by_cases h : k' = k <;> simp [alGet, alSet, h, ih]

theorem alGet_alSet_ne (k k' : String) (hne : k ≠ k') (v : α) (l : List (String × α)) :
    alGet k' (alSet k v l) = alGet k' l := by
  induction l with
  | nil => simp [alGet, alSet, hne]
  | cons p rest ih =>
    obtain ⟨k₀, v₀⟩ := p
    by_cases h : k₀ = k
    · subst h
      simp [alGet, alSet, hne]
    · by_cases h' : k₀ = k' <;> simp [alGet, alSet, h, h', hne.symm, ih]

theorem alSet_alSet_self (k : String) (v : α) (l : List (String × α)) :
    alSet k v (alSet k v l) = alSet k v l := by
  induction l with
  | nil => simp [alSet]
  | cons p rest ih =>
    obtain ⟨k₀, v₀⟩ := p
    by_cases h : k₀ = k <;> simp [alSet, h, ih]

@[simp] theorem alGet_alDel_self (k : String) (l : List (String × α)) :
    alGet k (alDel k l) = none := by
  induction l with
  | nil => simp [alGet, alDel]
  | cons p rest ih =>
    obtain ⟨k₀, v₀⟩ := p
    by_cases h : k₀ = k
    · subst h
      simpa [alDel] using ih
    · simpa [alDel, alGet, h] using ih

/-! ## Executable string comparison

SQLite compares TEXT values with `memcmp` and Rust's `String: Ord` is
byte-lexicographic; on well-formed UTF-8 both coincide with lexicographic
comparison of the scalar-value sequences, which this executable function
implements (Mathlib's `String` order is not kernel-reducible). -/

def strLtL : List Char → List Char → Bool
  | [], [] => false
  | [], _ :: _ => true
  | _ :: _, [] => false
  | a :: as, b :: bs =>
      if a.toNat < b.toNat then true
      else if b.toNat < a.toNat then false
      else strLtL as bs

def strLt (s t : String) : Bool := strLtL s.data t.data

def strLe (s t : String) : Bool := !strLt t s

theorem strLtL_irrefl : ∀ l : List Char, strLtL l l = false := by
  intro l
  induction l with
  | nil => rfl
  | cons a as ih => simp [strLtL, ih]

theorem strLtL_asymm : ∀ l₁ l₂ : List Char, strLtL l₁ l₂ = true → strLtL l₂ l₁ = false := by
  intro l₁
  induction l₁ with
  | nil =>
    intro l₂ h
    cases l₂ with
    | nil => exact absurd h (by simp [strLtL])
    | cons b bs => rfl
  | cons a as ih =>
    intro l₂ h
    cases l₂ with
    | nil => exact absurd h (by simp [strLtL])
    | cons b bs =>
      by_cases hab : a.toNat < b.toNat
      · have hba : ¬ b.toNat < a.toNat := by omega
        simp [strLtL, hab, hba]
      · by_cases hba : b.toNat < a.toNat
        · simp [strLtL, hab, hba] at h
        · simp only [strLtL, if_neg hab, if_neg hba] at h
          simp only [strLtL, if_neg hba, if_neg hab]
          exact ih bs h

theorem strLtL_le_trans : ∀ x y z : List Char,
    strLtL y x = false → strLtL z y = false → strLtL z x = false := by
  intro x
  induction x with
  | nil =>
    intro y z _ _
    cases z with
    | nil => rfl
    | cons c cs => rfl
  | cons a as ih =>
    intro y z h1 h2
    cases y with
    | nil => exact absurd h1 (by simp [strLtL])
    | cons b bs =>
      cases z with
      | nil => exact absurd h2 (by simp [strLtL])
      | cons c cs =>
        by_cases hba : b.toNat < a.toNat
        · simp [strLtL, hba] at h1
        · by_cases hcb : c.toNat < b.toNat
          · simp [strLtL, hcb] at h2
          · have hca : ¬ c.toNat < a.toNat := by omega
            by_cases hac : a.toNat < c.toNat
            · simp [strLtL, hca, hac]
            · have hab : ¬ a.toNat < b.toNat := by omega
              have hbc : ¬ b.toNat < c.toNat := by omega
              simp only [strLtL, if_neg hba, if_neg hab] at h1
              simp only [strLtL, if_neg hcb, if_neg hbc] at h2
              simp only [strLtL, if_neg hca, if_neg hac]
              exact ih bs cs h1 h2

theorem strLt_irrefl (s : String) : strLt s s = false := strLtL_irrefl s.data

theorem strLt_asymm (s t : String) (h : strLt s t = true) : strLt t s = false :=
  strLtL_asymm s.data t.data h

theorem strLt_le_trans (x y z : String) (h1 : strLt y x = false)
    (h2 : strLt z y = false) : strLt z x = false :=
  strLtL_le_trans x.data y.data z.data h1 h2

theorem strLe_eq_true_iff (s t : String) : strLe s t = true ↔ strLt t s = false := by
  simp [strLe]

/-! ## Data model (`src/db.rs`)

`Note` mirrors the Rust `Note` struct (wire and row shape); `NoteRow` is the
stored row without the `id` column, which serves as the table key. -/

structure Note where
  id : String
  content : String
  updated_at : String
  is_deleted : Int
  is_synced : Int
  is_encrypted : Int
deriving Repr, DecidableEq

structure NoteRow where
  content : String
  updated_at : String
  is_deleted : Int
  is_synced : Int
  is_encrypted : Int
deriving Repr, DecidableEq

/-- Full state of `local.db`: the `notes` table keyed by `id` and the
`kv_store` table. -/
structure DbState where
  notes : List (String × NoteRow)
  kv : List (String × String)
deriving Repr, DecidableEq

/-! ## `RepoInternal::pull_upsert_notes` (db.rs:486-519)

The SQL statement per incoming note is

```
INSERT INTO notes (id, content, updated_at, is_deleted, is_synced, is_encrypted)
VALUES (?1, ?2, ?3, ?4, 1, ?5)
ON CONFLICT(id) DO UPDATE SET
  content = excluded.content, updated_at = excluded.updated_at,
  is_deleted = excluded.is_deleted, is_synced = 1,
  is_encrypted = excluded.is_encrypted
WHERE excluded.updated_at > notes.updated_at
```

i.e. insert when the id is absent; when present, overwrite only if the
incoming `updated_at` is strictly greater (SQLite TEXT comparison, modelled
by the lexicographic order on `String`).  After the loop the cursor is
written, and the whole batch commits in one transaction. -/

def rowOfNote (n : Note) : NoteRow :=
  { content := n.content, updated_at := n.updated_at, is_deleted := n.is_deleted,
    is_synced := 1, is_encrypted := n.is_encrypted }

def pullUpsertNote (n : Note) (tbl : List (String × NoteRow)) : List (String × NoteRow) :=
  match alGet n.id tbl with
  | none => alSet n.id (rowOfNote n) tbl
  | some old =>
      if strLt old.updated_at n.updated_at then alSet n.id (rowOfNote n) tbl else tbl

def pullApplyNotes (notes : List Note) (tbl : List (String × NoteRow)) :
    List (String × NoteRow) :=
  notes.foldl (fun t n => pullUpsertNote n t) tbl

/-- The committed effect of a successful `pull_upsert_notes(notes, cursor)`:
every applicable note upserted in order, then
`kv_store[last_synced_at] = cursor`. -/
def pullApplyAll (notes : List Note) (cursor : String) (st : DbState) : DbState :=
  { notes := pullApplyNotes notes st.notes,
    kv := alSet "last_synced_at" cursor st.kv }

/-! ### Transactional execution with failure oracle

Each `tx.execute` (one per note, one for the cursor) and the final
`tx.commit` can fail with a SQLite error.  `fail i` says whether the `i`-th
statement errors (indices `0..notes.length-1` the upserts,
`notes.length` the cursor write, `notes.length+1` the commit).  On any
error the Rust function returns `Err` and the dropped `rusqlite`
transaction rolls back (its default drop behaviour), so the published
database state is unchanged — that rollback contract of SQLite is part of
the environment model in `repoPullUpsert`. -/

def pullUpsertTxGo (fail : Nat → Bool) (i : Nat) :
    List Note → List (String × NoteRow) → Except Unit (List (String × NoteRow))
  | [], tbl => .ok tbl
  | n :: rest, tbl =>
      if fail i then .error () else pullUpsertTxGo fail (i + 1) rest (pullUpsertNote n tbl)

def pullUpsertNotesTx (fail : Nat → Bool) (notes : List Note) (cursor : String)
    (st : DbState) : Except Unit DbState :=
  match pullUpsertTxGo fail 0 notes st.notes with
  | .error e => .error e
  | .ok tbl =>
      if fail notes.length then .error ()
      else if fail (notes.length + 1) then .error ()
      else .ok { notes := tbl, kv := alSet "last_synced_at" cursor st.kv }

/-- Database state published by the repository actor after running
`pull_upsert_notes`: the transaction result on success, the unchanged
pre-state on error (rollback). -/
def repoPullUpsert (fail : Nat → Bool) (notes : List Note) (cursor : String)
    (st : DbState) : DbState × Except Unit Unit :=
  match pullUpsertNotesTx fail notes cursor st with
  | .ok st' => (st', .ok ())
  | .error e => (st, .error e)

theorem pullUpsertTxGo_ok (fail : Nat → Bool) (notes : List Note) :
    ∀ (i : Nat) (tbl tbl' : List (String × NoteRow)),
      pullUpsertTxGo fail i notes tbl = .ok tbl' → tbl' = pullApplyNotes notes tbl := by
  induction notes with
  | nil =>
    intro i tbl tbl' h
    simpa [pullUpsertTxGo, pullApplyNotes] using h.symm
  | cons n rest ih =>
    intro i tbl tbl' h
    by_cases hf : fail i
    · simp [pullUpsertTxGo, hf] at h
    · simp only [pullUpsertTxGo, hf, if_neg, Bool.false_eq_true, if_false] at h
      simpa [pullApplyNotes] using ih (i + 1) (pullUpsertNote n tbl) tbl' h

/-- **C1.** `PullUpsertNotes` is atomic: for every failure pattern, batch,
cursor and starting state, either the call succeeds and the published state
is exactly `pullApplyAll` (every applicable note applied, last-writer-wins,
and `kv_store[last_synced_at] = cursor`), or some step errors and the
published state is the unchanged pre-state. -/
theorem pull_upsert_notes_atomic (fail : Nat → Bool) (notes : List Note)
    (cursor : String) (st : DbState) :
    ((repoPullUpsert fail notes cursor st).2 = .ok () ∧
      (repoPullUpsert fail notes cursor st).1 = pullApplyAll notes cursor st ∧
      alGet "last_synced_at" (repoPullUpsert fail notes cursor st).1.kv = some cursor) ∨
    ((repoPullUpsert fail notes cursor st).2 = .error () ∧
      (repoPullUpsert fail notes cursor st).1 = st) := by
  unfold repoPullUpsert pullUpsertNotesTx
  cases hgo : pullUpsertTxGo fail 0 notes st.notes with
  | error e => right; simp
  | ok tbl =>
    by_cases h1 : fail notes.length
    · right; simp [h1]
    · by_cases h2 : fail (notes.length + 1)
      · right; simp [h1, h2]
      · left
        have htbl := pullUpsertTxGo_ok fail notes 0 st.notes tbl hgo
        simp [h1, h2, pullApplyAll, htbl]
/-! ### Idempotence of `pull_upsert_notes` (last-writer-wins) -/

theorem pullUpsertNote_lookup_other (n : Note) (tbl : List (String × NoteRow))
    (id : String) (hne : id ≠ n.id) :
    alGet id (pullUpsertNote n tbl) = alGet id tbl := by
  unfold pullUpsertNote
  cases alGet n.id tbl with
  | none => exact alGet_alSet_ne n.id id (fun h => hne h.symm) _ tbl
  | some old =>
    by_cases h : strLt old.updated_at n.updated_at = true
    · simp [h, alGet_alSet_ne n.id id (fun h' => hne h'.symm)]
    · simp [h]

/-- `strLt r.updated_at n.updated_at = false` reads "the incoming stamp of
`n` is ≤ the stored stamp of `r`". -/
theorem pullUpsertNote_lookup_self (n : Note) (tbl : List (String × NoteRow)) :
    ∃ r, alGet n.id (pullUpsertNote n tbl) = some r ∧
      strLt r.updated_at n.updated_at = false := by
  unfold pullUpsertNote
  cases hget : alGet n.id tbl with
  | none => exact ⟨rowOfNote n, by simp [rowOfNote, strLt_irrefl]⟩
  | some old =>
    by_cases h : strLt old.updated_at n.updated_at = true
    · exact ⟨rowOfNote n, by simp [h, rowOfNote, strLt_irrefl]⟩
    · exact ⟨old, by simp [h, hget], by simpa using h⟩

theorem pullUpsertNote_mono (n : Note) (tbl : List (String × NoteRow))
    (id : String) (r : NoteRow) (hget : alGet id tbl = some r) :
    ∃ r', alGet id (pullUpsertNote n tbl) = some r' ∧
      strLt r'.updated_at r.updated_at = false := by
  by_cases hid : id = n.id
  · subst hid
    unfold pullUpsertNote
    rw [hget]
    by_cases h : strLt r.updated_at n.updated_at = true
    · exact ⟨rowOfNote n, by simp [h, rowOfNote], strLt_asymm _ _ h⟩
    · exact ⟨r, by simp [h, hget], strLt_irrefl _⟩
  · exact ⟨r, by rw [pullUpsertNote_lookup_other n tbl id hid]; exact hget,
      strLt_irrefl _⟩

theorem pullApplyNotes_mono (notes : List Note) :
    ∀ (tbl : List (String × NoteRow)) (id : String) (r : NoteRow),
      alGet id tbl = some r →
      ∃ r', alGet id (pullApplyNotes notes tbl) = some r' ∧
        strLt r'.updated_at r.updated_at = false := by
  induction notes with
  | nil => exact fun tbl id r h => ⟨r, h, strLt_irrefl _⟩
  | cons n rest ih =>
    intro tbl id r hget
    obtain ⟨r₁, h₁, hle₁⟩ := pullUpsertNote_mono n tbl id r hget
    obtain ⟨r₂, h₂, hle₂⟩ := ih (pullUpsertNote n tbl) id r₁ h₁
    exact ⟨r₂, by simpa [pullApplyNotes] using h₂,
      strLt_le_trans _ _ _ hle₁ hle₂⟩

theorem pullApplyNotes_lookup_ge (notes : List Note) :
    ∀ (tbl : List (String × NoteRow)) (n : Note), n ∈ notes →
      ∃ r, alGet n.id (pullApplyNotes notes tbl) = some r ∧
        strLt r.updated_at n.updated_at = false := by
  induction notes with
  | nil => intro _ _ h; cases h
  | cons m rest ih =>
    intro tbl n hmem
    rcases List.mem_cons.mp hmem with hcase | hcase
    · subst hcase
      obtain ⟨r₁, h₁, hle₁⟩ := pullUpsertNote_lookup_self n tbl
      obtain ⟨r₂, h₂, hle₂⟩ := pullApplyNotes_mono rest (pullUpsertNote n tbl) n.id r₁ h₁
      exact ⟨r₂, by simpa [pullApplyNotes] using h₂,
        strLt_le_trans _ _ _ hle₁ hle₂⟩
    · obtain ⟨r, h, hle⟩ := ih (pullUpsertNote m tbl) n hcase
      exact ⟨r, by simpa [pullApplyNotes] using h, hle⟩

theorem pullUpsertNote_noop (n : Note) (tbl : List (String × NoteRow)) (r : NoteRow)
    (hget : alGet n.id tbl = some r)
    (hle : strLt r.updated_at n.updated_at = false) :
    pullUpsertNote n tbl = tbl := by
  unfold pullUpsertNote
  rw [hget]
  simp [hle]

theorem pullApplyNotes_noop (notes : List Note) :
    ∀ (tbl : List (String × NoteRow)),
      (∀ n ∈ notes, ∃ r, alGet n.id tbl = some r ∧
        strLt r.updated_at n.updated_at = false) →
      pullApplyNotes notes tbl = tbl := by
  induction notes with
  | nil => intro tbl _; rfl
  | cons n rest ih =>
    intro tbl hall
    obtain ⟨r, hget, hle⟩ := hall n (List.mem_cons_self n rest)
    have hnoop := pullUpsertNote_noop n tbl r hget hle
    have hrest : pullApplyNotes rest tbl = tbl :=
      ih tbl (fun m hm => hall m (List.mem_cons_of_mem n hm))
    calc pullApplyNotes (n :: rest) tbl
        = pullApplyNotes rest (pullUpsertNote n tbl) := rfl
      _ = pullApplyNotes rest tbl := by rw [hnoop]
      _ = tbl := hrest

/-- **C2.** `PullUpsertNotes` is idempotent under last-writer-wins: a second
application of the same batch and cursor immediately after a successful
first application leaves the whole database state (every note row, and the
cursor) unchanged, because a row is overwritten only on strictly greater
incoming `updated_at`. -/
theorem pull_upsert_notes_idempotent (notes : List Note) (cursor : String)
    (st : DbState) :
    pullApplyAll notes cursor (pullApplyAll notes cursor st) =
      pullApplyAll notes cursor st := by
  unfold pullApplyAll
  refine congrArg₂ DbState.mk ?_ (alSet_alSet_self _ _ _)
  exact pullApplyNotes_noop notes _
    (fun n hn => pullApplyNotes_lookup_ge notes st.notes n hn)

/-! ## `RepoInternal::save_note` (db.rs:405-432)

```
INSERT INTO notes (id, content, updated_at, is_deleted, is_synced, is_encrypted)
VALUES (?1, ?2, ?3, 0, 0, ?4)
ON CONFLICT(id) DO UPDATE SET
  content = excluded.content, updated_at = excluded.updated_at,
  is_deleted = 0, is_synced = 0, is_encrypted = excluded.is_encrypted
```

Both conflict branches write the same row values, so the statement is an
unconditional upsert.  The generated UUID and the `Utc::now()` timestamp are
inputs of the model (`freshId`, `now`). -/

def save_note (idOpt : Option String) (freshId : String) (now : String)
    (content : String) (is_encrypted : Bool) (st : DbState) : DbState × String :=
  let id := idOpt.getD freshId
  let flag : Int := if is_encrypted then 1 else 0
  ({ st with
      notes := alSet id
        { content := content, updated_at := now, is_deleted := 0,
          is_synced := 0, is_encrypted := flag } st.notes },
    id)

/-- **C9.** `SaveNote` postconditions: the returned id is the supplied one,
or the fresh UUID when none was supplied; the row under that id is upserted
with `updated_at = now`, `is_deleted = 0`, `is_synced = 0` and the given
`is_encrypted` flag (also when it overwrites an existing or tombstoned
row); every other row and the whole `kv_store` are untouched. -/
theorem save_note_spec (idOpt : Option String) (freshId now content : String)
    (is_encrypted : Bool) (st : DbState) :
    (save_note idOpt freshId now content is_encrypted st).2 =
        (match idOpt with | some i => i | none => freshId) ∧
    alGet (save_note idOpt freshId now content is_encrypted st).2
        (save_note idOpt freshId now content is_encrypted st).1.notes =
      some { content := content, updated_at := now, is_deleted := 0,
             is_synced := 0, is_encrypted := if is_encrypted then 1 else 0 } ∧
    (∀ id, id ≠ (save_note idOpt freshId now content is_encrypted st).2 →
      alGet id (save_note idOpt freshId now content is_encrypted st).1.notes =
        alGet id st.notes) ∧
    (save_note idOpt freshId now content is_encrypted st).1.kv = st.kv := by
  refine ⟨?_, ?_, ?_, rfl⟩
  · cases idOpt <;> rfl
  · simp [save_note]
  · intro id hne
    exact alGet_alSet_ne _ id (fun h => hne h.symm) _ st.notes

/-- Closed instance of `save_note_spec`: overwriting a tombstoned, synced,
encrypted row resets `is_deleted` and `is_synced` to 0 and bumps
`updated_at`. -/
theorem save_note_spec_witness :
    (save_note (some "n1") "u" "2024-01-02T00:00:00Z" "hello" false
        { notes := [("n1", { content := "old", updated_at := "2024-01-01T00:00:00Z",
                             is_deleted := 1, is_synced := 1, is_encrypted := 1 })],
          kv := [] }).2 = "n1" ∧
    alGet "n1" (save_note (some "n1") "u" "2024-01-02T00:00:00Z" "hello" false
        { notes := [("n1", { content := "old", updated_at := "2024-01-01T00:00:00Z",
                             is_deleted := 1, is_synced := 1, is_encrypted := 1 })],
          kv := [] }).1.notes =
      some { content := "hello", updated_at := "2024-01-02T00:00:00Z",
             is_deleted := 0, is_synced := 0, is_encrypted := 0 } := by
  have h := save_note_spec (some "n1") "u" "2024-01-02T00:00:00Z" "hello" false
    { notes := [("n1", { content := "old", updated_at := "2024-01-01T00:00:00Z",
                         is_deleted := 1, is_synced := 1, is_encrypted := 1 })],
      kv := [] }
  exact ⟨h.1, by simpa using h.2.1⟩

/-! ## Base64 (RFC 4648 standard alphabet with padding)

`crypto.rs` uses `base64::engine::general_purpose::STANDARD`.  Bytes are
modelled as `Nat` values `< 256`.  The decoder accepts canonical padded
encodings and rejects stray `=` or non-zero trailing bits, as the crate's
STANDARD engine does. -/

def b64Chars : List Char :=
  "ABCDEFGHIJKLMNOPQRSTUVWXYZabcdefghijklmnopqrstuvwxyz0123456789+/".data

def b64Alpha (n : Nat) : Char := b64Chars.getD n 'A'

def b64InvGo (c : Char) : List Char → Nat → Option Nat
  | [], _ => none
  | c' :: rest, i => if c' = c then some i else b64InvGo c rest (i + 1)

def b64Inv (c : Char) : Option Nat := b64InvGo c b64Chars 0

theorem b64Inv_alpha_fin : ∀ n : Fin 64, b64Inv (b64Alpha n.val) = some n.val := by
  decide

theorem b64Inv_alpha (n : Nat) (h : n < 64) : b64Inv (b64Alpha n) = some n :=
  b64Inv_alpha_fin ⟨n, h⟩

theorem b64Alpha_ne_pad_fin : ∀ n : Fin 64, b64Alpha n.val ≠ '=' := by
  decide

theorem b64Alpha_ne_pad (n : Nat) (h : n < 64) : b64Alpha n ≠ '=' :=
  b64Alpha_ne_pad_fin ⟨n, h⟩

def b64EncGo : List Nat → List Char
  | [] => []
  | [a] => [b64Alpha (a / 4), b64Alpha (a % 4 * 16), '=', '=']
  | [a, b] => [b64Alpha (a / 4), b64Alpha (a % 4 * 16 + b / 16), b64Alpha (b % 16 * 4), '=']
  | a :: b :: c :: rest =>
      b64Alpha (a / 4) :: b64Alpha (a % 4 * 16 + b / 16) ::
        b64Alpha (b % 16 * 4 + c / 64) :: b64Alpha (c % 64) :: b64EncGo rest

def b64DecGo : List Char → Option (List Nat)
  | [] => some []
  | c1 :: c2 :: c3 :: c4 :: rest =>
      match b64Inv c1, b64Inv c2 with
      | some s1, some s2 =>
        if c3 = '=' then
          if c4 = '=' then
            if rest = [] then
              if s2 % 16 = 0 then some [s1 * 4 + s2 / 16] else none
            else none
          else none
        else
          match b64Inv c3 with
          | some s3 =>
            if c4 = '=' then
              if rest = [] then
                if s3 % 4 = 0 then some [s1 * 4 + s2 / 16, s2 % 16 * 16 + s3 / 4]
                else none
              else none
            else
              match b64Inv c4 with
              | some s4 =>
                  (b64DecGo rest).map
                    (fun t => (s1 * 4 + s2 / 16) :: (s2 % 16 * 16 + s3 / 4) ::
                      (s3 % 4 * 64 + s4) :: t)
              | none => none
          | none => none
      | _, _ => none
  | _ => none

/-- `BASE64.encode` on a byte sequence, producing a `String` as in Rust. -/
def b64Encode (l : List Nat) : String := ⟨b64EncGo l⟩

/-- `BASE64.decode` of a `String` back to bytes; `none` is the crate's
decode error. -/
def b64Decode (s : String) : Option (List Nat) := b64DecGo s.data

theorem b64_roundtrip_go : ∀ l : List Nat, (∀ b ∈ l, b < 256) →
    b64DecGo (b64EncGo l) = some l := by
  intro l
  induction l using b64EncGo.induct with
  | case1 => intro _; rfl
  | case2 a =>
    intro hb
    have ha : a < 256 := hb a (by simp)
    have h1 : a / 4 < 64 := by omega
    have h2 : a % 4 * 16 < 64 := by omega
    simp only [b64EncGo, b64DecGo, b64Inv_alpha _ h1, b64Inv_alpha _ h2]
    have : a % 4 * 16 % 16 = 0 := by omega
    simp only [if_pos rfl, this]
    have : a / 4 * 4 + a % 4 * 16 / 16 = a := by omega
    simp
    omega
  | case3 a b =>
    intro hb
    have ha : a < 256 := hb a (by simp)
    have hb' : b < 256 := hb b (by simp)
    have h1 : a / 4 < 64 := by omega
    have h2 : a % 4 * 16 + b / 16 < 64 := by omega
    have h3 : b % 16 * 4 < 64 := by omega
    simp only [b64EncGo, b64DecGo, b64Inv_alpha _ h1, b64Inv_alpha _ h2,
      b64Inv_alpha _ h3, if_neg (b64Alpha_ne_pad _ h3)]
    have hz : b % 16 * 4 % 4 = 0 := by omega
    have hv1 : (a / 4) * 4 + (a % 4 * 16 + b / 16) / 16 = a := by omega
    have hv2 : (a % 4 * 16 + b / 16) % 16 * 16 + b % 16 * 4 / 4 = b := by omega
    simp [hz]
    omega
  | case4 a b c rest ih =>
    intro hb
    have ha : a < 256 := hb a (by simp)
    have hb' : b < 256 := hb b (by simp)
    have hc : c < 256 := hb c (by simp)
    have h1 : a / 4 < 64 := by omega
    have h2 : a % 4 * 16 + b / 16 < 64 := by omega
    have h3 : b % 16 * 4 + c / 64 < 64 := by omega
    have h4 : c % 64 < 64 := by omega
    have hrest : b64DecGo (b64EncGo rest) = some rest :=
      ih (fun x hx => hb x (by simp [hx]))
    simp only [b64EncGo, b64DecGo, b64Inv_alpha _ h1, b64Inv_alpha _ h2,
      b64Inv_alpha _ h3, b64Inv_alpha _ h4, if_neg (b64Alpha_ne_pad _ h3),
      if_neg (b64Alpha_ne_pad _ h4), hrest]
    have hv1 : (a / 4) * 4 + (a % 4 * 16 + b / 16) / 16 = a := by omega
    have hv2 : (a % 4 * 16 + b / 16) % 16 * 16 + (b % 16 * 4 + c / 64) / 4 = b := by
      omega
    have hv3 : (b % 16 * 4 + c / 64) % 4 * 64 + c % 64 = c := by omega
    simp
    omega

theorem b64_roundtrip (l : List Nat) (hb : ∀ b ∈ l, b < 256) :
    b64Decode (b64Encode l) = some l :=
  b64_roundtrip_go l hb

/-! ## Crypto (`src/crypto.rs`)

`encrypt`/`decrypt` wrap ChaCha20-Poly1305 from the `chacha20poly1305`
crate.  The AEAD primitive is embedded structurally: a stream cipher
(per-index keystream XORed onto the message) followed by a 16-byte tag that
is a deterministic function of key, nonce and ciphertext.  The keystream
`ks` and the MAC `mac` are arbitrary parameters — every theorem below holds
for any instantiation, in particular for the real ChaCha20 keystream and
Poly1305 MAC.  Keys are byte lists (the Rust `[u8; 32]`); the fresh random
nonce of `encrypt` is an explicit 12-byte input. -/

abbrev Key := List Nat

/-- Force an arbitrary `mac` output into a 16-byte tag. -/
def norm16 (l : List Nat) : List Nat :=
  (l.map (· % 256) ++ List.replicate 16 0).take 16

def xorKs (f : Nat → Nat) (i : Nat) : List Nat → List Nat
  | [] => []
  | b :: rest => (b ^^^ f i % 256) :: xorKs f (i + 1) rest

theorem xorKs_xorKs (f : Nat → Nat) : ∀ (i : Nat) (l : List Nat),
    xorKs f i (xorKs f i l) = l := by
  intro i l
  induction l generalizing i with
  | nil => rfl
  | cons b rest ih => simp [xorKs, Nat.xor_cancel_right, ih]

theorem xorKs_length (f : Nat → Nat) : ∀ (i : Nat) (l : List Nat),
    (xorKs f i l).length = l.length := by
  intro i l
  induction l generalizing i with
  | nil => rfl
  | cons b rest ih => simp [xorKs, ih]

theorem xorKs_lt (f : Nat → Nat) : ∀ (i : Nat) (l : List Nat),
    (∀ b ∈ l, b < 256) → ∀ b ∈ xorKs f i l, b < 256 := by
  intro i l
  induction l generalizing i with
  | nil => intro _ b hb; cases hb
  | cons a rest ih =>
    intro hl b hb
    rcases List.mem_cons.mp hb with hcase | hcase
    · subst hcase
      have h1 : a < 2 ^ 8 := by
        have := hl a (by simp)
        omega
      have h2 : f i % 256 < 2 ^ 8 := by omega
      have := Nat.xor_lt_two_pow h1 h2
      omega
    · exact ih (i + 1) (fun x hx => hl x (by simp [hx])) b hcase

theorem norm16_length (l : List Nat) : (norm16 l).length = 16 := by
  simp [norm16]

theorem norm16_lt (l : List Nat) : ∀ b ∈ norm16 l, b < 256 := by
  intro b hb
  have hb' := List.mem_append.mp (List.mem_of_mem_take hb)
  rcases hb' with h | h
  · obtain ⟨a, _, ha⟩ := List.mem_map.mp h
    omega
  · have := List.eq_of_mem_replicate h
    omega

/-- `cipher.encrypt(&nonce, content)`: ciphertext followed by the 16-byte
authentication tag. -/
def aeadSeal (ks : Key → List Nat → Nat → Nat) (mac : Key → List Nat → List Nat → List Nat)
    (key : Key) (nonce : List Nat) (msg : List Nat) : List Nat :=
  let ct := xorKs (ks key nonce) 0 msg
  ct ++ norm16 (mac key nonce ct)

/-- `cipher.decrypt(nonce, ciphertext)`: check the tag, then undo the
stream; `none` is the AEAD integrity failure (wrong key or tampering). -/
def aeadOpen (ks : Key → List Nat → Nat → Nat) (mac : Key → List Nat → List Nat → List Nat)
    (key : Key) (nonce : List Nat) (payload : List Nat) : Option (List Nat) :=
  if payload.length < 16 then none
  else
    let ct := payload.take (payload.length - 16)
    let tag := payload.drop (payload.length - 16)
    if tag = norm16 (mac key nonce ct) then some (xorKs (ks key nonce) 0 ct) else none

theorem aeadOpen_seal (ks : Key → List Nat → Nat → Nat)
    (mac : Key → List Nat → List Nat → List Nat) (key : Key) (nonce msg : List Nat) :
    aeadOpen ks mac key nonce (aeadSeal ks mac key nonce msg) = some msg := by
  unfold aeadSeal aeadOpen
  have hlen : (xorKs (ks key nonce) 0 msg ++ norm16 (mac key nonce (xorKs (ks key nonce) 0 msg))).length
      = msg.length + 16 := by
    simp [xorKs_length, norm16_length]
  rw [hlen]
  have hnotlt : ¬ (msg.length + 16 < 16) := by omega
  rw [if_neg hnotlt]
  have hctlen : msg.length + 16 - 16 = (xorKs (ks key nonce) 0 msg).length := by
    simp [xorKs_length]
  rw [hctlen, List.take_left, List.drop_left]
  simp [xorKs_xorKs]

/-- Errors of `decrypt` (crypto.rs:69-89): base64 failure, payload shorter
than the 12-byte nonce, AEAD failure, invalid UTF-8. -/
inductive CryptoErr where
  | base64
  | tooShort
  | integrity
  | encoding
deriving Repr, DecidableEq

/-- `crypto::encrypt` (crypto.rs:52-66): seal the UTF-8 bytes of `content`
under a fresh 96-bit nonce and emit `base64(nonce ++ sealed)`.  `utf8enc`
is the byte encoding of Rust's `str::as_bytes`. -/
def encrypt (ks : Key → List Nat → Nat → Nat) (mac : Key → List Nat → List Nat → List Nat)
    (utf8enc : String → List Nat) (content : String) (key : Key) (nonce : List Nat) :
    String :=
  b64Encode (nonce ++ aeadSeal ks mac key nonce (utf8enc content))

/-- `crypto::decrypt` (crypto.rs:69-89): base64-decode, reject payloads
shorter than 12 bytes, split off the nonce, open the AEAD, decode UTF-8.
`utf8dec` is Rust's `String::from_utf8` (`none` on invalid UTF-8). -/
def decrypt (ks : Key → List Nat → Nat → Nat) (mac : Key → List Nat → List Nat → List Nat)
    (utf8dec : List Nat → Option String) (payload_b64 : String) (key : Key) :
    Except CryptoErr String :=
  match b64Decode payload_b64 with
  | none => .error .base64
  | some payload =>
    if payload.length < 12 then .error .tooShort
    else
      match aeadOpen ks mac key (payload.take 12) (payload.drop 12) with
      | none => .error .integrity
      | some pt =>
        match utf8dec pt with
        | some s => .ok s
        | none => .error .encoding

theorem aeadSeal_bytes_lt (ks : Key → List Nat → Nat → Nat)
    (mac : Key → List Nat → List Nat → List Nat) (key : Key) (nonce msg : List Nat)
    (hmsg : ∀ b ∈ msg, b < 256) : ∀ b ∈ aeadSeal ks mac key nonce msg, b < 256 := by
  intro b hb
  rcases List.mem_append.mp hb with h | h
  · exact xorKs_lt (ks key nonce) 0 msg hmsg b h
  · exact norm16_lt _ b h

/-- **C3.** Encrypt/decrypt round-trip: for every keystream and MAC
instantiation of the AEAD, every UTF-8 byte codec (`utf8dec ∘ utf8enc =
some`, bytes below 256 — both true of UTF-8), every key, every 12-byte
nonce and every string `s`, `decrypt (encrypt s key) key` succeeds and
returns `s`. -/
theorem encrypt_decrypt_roundtrip (ks : Key → List Nat → Nat → Nat)
    (mac : Key → List Nat → List Nat → List Nat)
    (utf8enc : String → List Nat) (utf8dec : List Nat → Option String)
    (hcodec : ∀ s, utf8dec (utf8enc s) = some s)
    (hbytes : ∀ s, ∀ b ∈ utf8enc s, b < 256)
    (key : Key) (nonce : List Nat) (hn12 : nonce.length = 12)
    (hnb : ∀ b ∈ nonce, b < 256) (s : String) :
    decrypt ks mac utf8dec (encrypt ks mac utf8enc s key nonce) key = .ok s := by
  unfold encrypt decrypt
  have hall : ∀ b ∈ nonce ++ aeadSeal ks mac key nonce (utf8enc s), b < 256 := by
    intro b hb
    rcases List.mem_append.mp hb with h | h
    · exact hnb b h
    · exact aeadSeal_bytes_lt ks mac key nonce (utf8enc s) (hbytes s) b h
  rw [b64_roundtrip _ hall]
  show (if (nonce ++ aeadSeal ks mac key nonce (utf8enc s)).length < 12
          then Except.error CryptoErr.tooShort
        else
          match aeadOpen ks mac key
              ((nonce ++ aeadSeal ks mac key nonce (utf8enc s)).take 12)
              ((nonce ++ aeadSeal ks mac key nonce (utf8enc s)).drop 12) with
          | none => Except.error CryptoErr.integrity
          | some pt =>
            match utf8dec pt with
            | some s => Except.ok s
            | none => Except.error CryptoErr.encoding) = Except.ok s
  have hlen : (nonce ++ aeadSeal ks mac key nonce (utf8enc s)).length =
      12 + ((utf8enc s).length + 16) := by
    simp [aeadSeal, xorKs_length, norm16_length, hn12]
  rw [hlen]
  have hnotlt : ¬ (12 + ((utf8enc s).length + 16) < 12) := by omega
  rw [if_neg hnotlt]
  have htake : (nonce ++ aeadSeal ks mac key nonce (utf8enc s)).take 12 = nonce := by
    rw [← hn12, List.take_left]
  have hdrop : (nonce ++ aeadSeal ks mac key nonce (utf8enc s)).drop 12 =
      aeadSeal ks mac key nonce (utf8enc s) := by
    rw [← hn12, List.drop_left]
  rw [htake, hdrop, aeadOpen_seal]
  simp [hcodec]

/-! ### A concrete byte codec for witnesses

Every Unicode scalar value is below `0x110000 < 2^24`, so three base-256
digits per character give an injective byte encoding with a provable
round-trip; it instantiates the codec hypotheses of the round-trip theorem
(the real UTF-8 codec satisfies the same two properties). -/

def cp3EncChar (c : Char) : List Nat :=
  [c.toNat / 65536, c.toNat / 256 % 256, c.toNat % 256]

def cp3Enc (s : String) : List Nat := s.data.flatMap cp3EncChar

def cp3DecGo : List Nat → Option (List Char)
  | [] => some []
  | h :: m :: l :: rest =>
      (cp3DecGo rest).map (fun t => Char.ofNat (h * 65536 + m * 256 + l) :: t)
  | _ => none

def cp3Dec (l : List Nat) : Option String := (cp3DecGo l).map List.asString

theorem cp3DecGo_enc (l : List Char) : cp3DecGo (l.flatMap cp3EncChar) = some l := by
  induction l with
  | nil => rfl
  | cons c rest ih =>
    have hval : c.toNat / 65536 * 65536 + c.toNat / 256 % 256 * 256 + c.toNat % 256 =
        c.toNat := by omega
    have hsplit : (c :: rest).flatMap cp3EncChar =
        c.toNat / 65536 :: c.toNat / 256 % 256 :: c.toNat % 256 ::
          rest.flatMap cp3EncChar := rfl
    rw [hsplit]
    simp only [cp3DecGo, ih, Option.map_some]
    rw [hval, Char.ofNat_toNat]
    rfl

theorem cp3_roundtrip (s : String) : cp3Dec (cp3Enc s) = some s := by
  unfold cp3Dec cp3Enc
  rw [cp3DecGo_enc]
  simp [List.asString]

theorem cp3_bytes_lt (s : String) : ∀ b ∈ cp3Enc s, b < 256 := by
  intro b hb
  obtain ⟨c, _, hc⟩ := List.mem_flatMap.mp hb
  have hval : c.toNat < 1114112 := by
    rcases c.valid with h | h <;> (unfold Char.toNat; omega)
  simp only [cp3EncChar, List.mem_cons, List.not_mem_nil, or_false] at hc
  rcases hc with h | h | h <;> omega

/-- Closed instance of the round-trip theorem: a concrete keystream, MAC,
codec, key, nonce and message. -/
theorem encrypt_decrypt_roundtrip_witness :
    decrypt (fun _ _ i => i + 7) (fun _ _ ct => ct) cp3Dec
        (encrypt (fun _ _ i => i + 7) (fun _ _ ct => ct) cp3Enc "hello"
          (List.replicate 32 1) (List.replicate 12 2))
        (List.replicate 32 1) = .ok "hello" :=
  encrypt_decrypt_roundtrip (fun _ _ i => i + 7) (fun _ _ ct => ct) cp3Enc cp3Dec
    cp3_roundtrip cp3_bytes_lt (List.replicate 32 1) (List.replicate 12 2)
    (by decide) (by decide) "hello"

/-! ## SyncManager (`src/sync.rs`)

The network is modelled by explicit response scripts: `checkRes` for
`/sync/check`, `pages i` for the `i`-th `/sync/pull` call made during this
pull, `pushRes i` for the `i`-th `/sync/push` call.  Crypto calls are the
parameterised `decFn`/`encFn` (instantiable with the `decrypt`/`encrypt`
model above).  Repository commands are the pure success-path state
transformations of db.rs — a repository error aborts a sync attempt, which
the affected claims exclude by conditioning on success. -/

inductive SyncStatus where
  | Synced
  | Syncing
  | Offline
  | Error
  | Unlocking
  | Unlocked
  | PaymentRequired
deriving Repr, DecidableEq

structure PullResult where
  changes : List Note
  has_more : Bool
  next_cursor : String
deriving Repr, DecidableEq

/-- `Repo::get_cursor` (db.rs:187-191): `last_synced_at`, defaulting to the
epoch. -/
def getCursor (st : DbState) : String :=
  (alGet "last_synced_at" st.kv).getD "1970-01-01T00:00:00Z"

/-- The decrypt-and-filter pass over one pulled page (sync.rs:484-508):
encrypted notes are decrypted (marking `is_encrypted = 0`) and kept;
a decryption failure, a missing key, or a plaintext note drops the note. -/
def decryptChanges (decFn : String → Key → Except CryptoErr String) (keyOpt : Option Key)
    (changes : List Note) : List Note :=
  changes.filterMap (fun note =>
    if note.is_encrypted = 1 then
      match keyOpt with
      | some key =>
        match decFn note.content key with
        | .ok plaintext => some { note with content := plaintext, is_encrypted := 0 }
        | .error _ => none
      | none => none
    else none)

/-- Outcome of `SyncManager::pull`: the database state, the trace of
successful `/sync/pull` calls (queried cursor paired with the server's
response), and whether the pull aborted with an error. -/
structure PullOut where
  db : DbState
  trace : List (String × PullResult)
  err : Bool
deriving Repr, DecidableEq

/-- The database effect of one pulled page (sync.rs:510-516):
`pull_upsert_notes(batch, next_cursor)` when the decrypted batch is
non-empty, bare `set_last_synced(next_cursor)` when it is empty but the
page had entries, nothing when the page was empty. -/
def pullStep (decFn : String → Key → Except CryptoErr String) (keyOpt : Option Key)
    (res : PullResult) (st : DbState) : DbState :=
  let decd := decryptChanges decFn keyOpt res.changes
  if decd.isEmpty then
    if 0 < res.changes.length then
      { st with kv := alSet "last_synced_at" res.next_cursor st.kv }
    else st
  else pullApplyAll decd res.next_cursor st

/-- The paged loop of `SyncManager::pull` (sync.rs:475-527).  `fuel`
counts the remaining pages out of `MAX_PAGES = 100`; `call` indexes the
page requests.  Each page: fetch, decrypt-filter, apply `pullStep`; break
on cursor fixed point, then on `has_more = false`, else advance the
cursor. -/
def pullGo (decFn : String → Key → Except CryptoErr String) (keyOpt : Option Key)
    (pages : Nat → Except Unit PullResult) :
    Nat → Nat → String → DbState → PullOut
  | 0, _, _, st => ⟨st, [], false⟩
  | fuel + 1, call, cur, st =>
    match pages call with
    | .error _ => ⟨st, [], true⟩
    | .ok res =>
      if res.next_cursor = cur then ⟨pullStep decFn keyOpt res st, [(cur, res)], false⟩
      else if res.has_more = false then
        ⟨pullStep decFn keyOpt res st, [(cur, res)], false⟩
      else
        ⟨(pullGo decFn keyOpt pages fuel (call + 1) res.next_cursor
            (pullStep decFn keyOpt res st)).db,
         (cur, res) :: (pullGo decFn keyOpt pages fuel (call + 1) res.next_cursor
            (pullStep decFn keyOpt res st)).trace,
         (pullGo decFn keyOpt pages fuel (call + 1) res.next_cursor
            (pullStep decFn keyOpt res st)).err⟩

/-- `SyncManager::pull` (sync.rs:457-528): read the cursor, hit
`/sync/check`, return early unless the server is ahead, else run the paged
loop. -/
def pull (decFn : String → Key → Except CryptoErr String) (keyOpt : Option Key)
    (checkRes : Except Unit String) (pages : Nat → Except Unit PullResult)
    (st : DbState) : PullOut :=
  match checkRes with
  | .error _ => ⟨st, [], true⟩
  | .ok server_time =>
    if strLe server_time (getCursor st) then ⟨st, [], false⟩
    else pullGo decFn keyOpt pages 100 0 (getCursor st) st

/-! ### Push (`SyncManager::push`, sync.rs:530-581) -/

inductive PushOutcome where
  | ok
  | forbidden
  | fail
deriving Repr, DecidableEq

inductive PushErr where
  | paymentRequired
  | other
deriving Repr, DecidableEq

/-- `Repo::get_unsynced_notes`: rows with `is_synced = 0`. -/
def unsyncedNotes (st : DbState) : List (String × NoteRow) :=
  st.notes.filter (fun p => p.2.is_synced = 0)

/-- `Repo::mark_as_synced`: `UPDATE notes SET is_synced = 1 WHERE id = ?`. -/
def markSynced (id : String) (st : DbState) : DbState :=
  { st with notes := alUpdate id (fun r => { r with is_synced := 1 }) st.notes }

/-- One-by-one push loop: re-read the latest row, encrypt, POST, mark as
synced; skip on missing row, missing key or encryption failure; abort on
403 (`Payment Required`) or any other push error.  Returns the state, the
wire bodies pushed so far, and the aborting error if any. -/
def pushGo (encFn : String → Key → Except Unit String) (keyOpt : Option Key)
    (pushRes : Nat → PushOutcome) :
    List (String × NoteRow) → Nat → DbState → List Note →
      DbState × List Note × Option PushErr
  | [], _, st, acc => (st, acc, none)
  | (id, _) :: rest, call, st, acc =>
    match alGet id st.notes with
    | none => pushGo encFn keyOpt pushRes rest call st acc
    | some latest =>
      match keyOpt with
      | none => pushGo encFn keyOpt pushRes rest call st acc
      | some key =>
        match encFn latest.content key with
        | .error _ => pushGo encFn keyOpt pushRes rest call st acc
        | .ok ciphertext =>
          let wire : Note :=
            { id := id, content := ciphertext, updated_at := latest.updated_at,
              is_deleted := latest.is_deleted, is_synced := latest.is_synced,
              is_encrypted := 1 }
          match pushRes call with
          | .forbidden => (st, acc, some .paymentRequired)
          | .fail => (st, acc, some .other)
          | .ok => pushGo encFn keyOpt pushRes rest (call + 1) (markSynced id st)
              (acc ++ [wire])

/-- `SyncManager::push`: a no-op exactly when `plan == "free"` (string
equality); otherwise push every unsynced note. -/
def push (encFn : String → Key → Except Unit String) (keyOpt : Option Key)
    (pushRes : Nat → PushOutcome) (plan : String) (st : DbState) :
    DbState × List Note × Option PushErr :=
  if plan = "free" then (st, [], none)
  else pushGo encFn keyOpt pushRes (unsyncedNotes st) 0 st []

inductive SyncErr where
  | paymentRequired
  | other
deriving Repr, DecidableEq

/-- `SyncManager::do_sync` (sync.rs:440-455): pull, then push; a push
failure whose message contains `Payment Required` is distinguished. -/
def doSync (decFn : String → Key → Except CryptoErr String)
    (encFn : String → Key → Except Unit String) (keyOpt : Option Key)
    (checkRes : Except Unit String) (pages : Nat → Except Unit PullResult)
    (pushRes : Nat → PushOutcome) (plan : String) (st : DbState) :
    DbState × List Note × Option SyncErr :=
  let p := pull decFn keyOpt checkRes pages st
  if p.err then (p.db, [], some .other)
  else
    match push encFn keyOpt pushRes plan p.db with
    | (st', pushed, none) => (st', pushed, none)
    | (st', pushed, some .paymentRequired) => (st', pushed, some .paymentRequired)
    | (st', pushed, some .other) => (st', pushed, some .other)

/-! ### `SyncManager::try_sync` (sync.rs:349-438) -/

/-- `/auth/me` response (sync.rs:276-285). -/
structure MeResp where
  plan : String
  subscription_status : String
  subscription_end_date : Option String
  encryption_salt : Option String
  encryption_validator : Option String
deriving Repr, DecidableEq

/-- App-level state touched by `try_sync`: the database, the on-disk
passphrase file, and the in-memory KeyStore (`crypto_key`). -/
structure AppState where
  db : DbState
  passFile : Bool
  keystore : Option Key
deriving Repr, DecidableEq

structure SyncOutcome where
  st : AppState
  events : List SyncStatus
  pushed : List Note
deriving Repr, DecidableEq

/-- ASCII lowercase fold, as in `str::eq_ignore_ascii_case`. -/
def asciiLower (c : Char) : Char :=
  if 'A' ≤ c ∧ c ≤ 'Z' then Char.ofNat (c.toNat + 32) else c

/-- The Unicode `White_Space` property, which Rust's `char::is_whitespace`
(and hence `str::trim`) tests: U+0009..U+000D, U+0020, U+0085, U+00A0,
U+1680, U+2000..U+200A, U+2028, U+2029, U+202F, U+205F, U+3000. -/
def isWsChar (c : Char) : Bool :=
  decide ((0x09 ≤ c.toNat ∧ c.toNat ≤ 0x0D) ∨ c.toNat = 0x20 ∨ c.toNat = 0x85 ∨
    c.toNat = 0xA0 ∨ c.toNat = 0x1680 ∨ (0x2000 ≤ c.toNat ∧ c.toNat ≤ 0x200A) ∨
    c.toNat = 0x2028 ∨ c.toNat = 0x2029 ∨ c.toNat = 0x202F ∨ c.toNat = 0x205F ∨
    c.toNat = 0x3000)

/-- `str::trim`: strip leading and trailing Unicode whitespace. -/
def trimChars (l : List Char) : List Char :=
  ((l.dropWhile isWsChar).reverse.dropWhile isWsChar).reverse

/-- `me.plan.trim().eq_ignore_ascii_case("free")` (sync.rs:369). -/
def planIsFree (p : String) : Bool :=
  (trimChars p.data).map asciiLower = "free".data

/-- `SyncManager::try_sync`: plan gate, free-plan cleanup, salt and key
gates, then `do_sync` with status events. -/
def trySync (decFn : String → Key → Except CryptoErr String)
    (encFn : String → Key → Except Unit String) (token : String)
    (meRes : Except Unit MeResp) (checkRes : Except Unit String)
    (pages : Nat → Except Unit PullResult) (pushRes : Nat → PushOutcome)
    (app : AppState) : SyncOutcome :=
  if token = "" then ⟨app, [.Offline], []⟩
  else
    match meRes with
    | .error _ => ⟨app, [.Error], []⟩
    | .ok me =>
      if planIsFree me.plan then
        let app' :=
          if (alGet "encryption_salt" app.db.kv).isSome then
            { db := { app.db with kv := alDel "encryption_salt" app.db.kv },
              passFile := false, keystore := none }
          else app
        ⟨app', [.Offline], []⟩
      else
        let hasKey := app.keystore.isSome
        match alGet "encryption_salt" app.db.kv with
        | none =>
          match me.encryption_salt with
          | some salt =>
            ⟨{ app with db := { app.db with
                kv := alSet "encryption_salt" salt app.db.kv } }, [.Offline], []⟩
          | none => ⟨app, [.Offline], []⟩
        | some _ =>
          if hasKey = false then ⟨app, [.Offline], []⟩
          else
            match doSync decFn encFn app.keystore checkRes pages pushRes me.plan app.db with
            | (db', pushed, none) =>
                ⟨{ app with db := db' }, [.Syncing, .Synced], pushed⟩
            | (db', pushed, some .paymentRequired) =>
                ⟨{ app with db := db' }, [.Syncing, .PaymentRequired], pushed⟩
            | (db', pushed, some .other) =>
                ⟨{ app with db := db' }, [.Syncing, .Error], pushed⟩

/-! ## `unlock_process` (main.rs:140-183)

Derive a key from the passphrase and the locally stored salt; if `/auth/me`
succeeds and carries a validator, require it to decrypt to the sentinel
`"RISU-VALID"` before installing the key.  `deriveFn` stands for
`crypto::derive_key_async` and `decFn` for `crypto::decrypt`; `saltRes` is
the `repo.get_salt()` reply and `meRes` the `/auth/me` result.  The
function returns the new KeyStore contents and the Rust `Result<bool>`. -/

def unlockProcess (deriveFn : String → String → Except Unit Key)
    (decFn : String → Key → Except CryptoErr String) (passphrase : String)
    (saltRes : Except Unit (Option String)) (meRes : Except Unit MeResp)
    (keystore : Option Key) : Option Key × Except Unit Bool :=
  if passphrase = "" then (keystore, .ok false)
  else
    match saltRes with
    | .error e => (keystore, .error e)
    | .ok none => (keystore, .ok false)
    | .ok (some salt) =>
      match deriveFn passphrase salt with
      | .error e => (keystore, .error e)
      | .ok key =>
        match meRes with
        | .ok me =>
          match me.encryption_validator with
          | some validator =>
            match decFn validator key with
            | .ok decrypted =>
                if decrypted = "RISU-VALID" then (some key, .ok true)
                else (keystore, .ok false)
            | .error _ => (keystore, .ok false)
          | none => (some key, .ok true)
        | .error _ => (some key, .ok true)

/-- **C4.** When the server provides a validator and decrypting it with the
derived key fails or yields anything other than `"RISU-VALID"`, unlock
returns `Ok(false)` (invalid passphrase) and the KeyStore is exactly what
it was — no key is installed; and in the same validator-present situation
the key is installed iff validation succeeded. -/
theorem unlock_no_install_on_validator_mismatch
    (deriveFn : String → String → Except Unit Key)
    (decFn : String → Key → Except CryptoErr String)
    (passphrase salt : String) (key : Key) (me : MeResp) (validator : String)
    (keystore : Option Key)
    (hderive : deriveFn passphrase salt = .ok key)
    (hvalidator : me.encryption_validator = some validator)
    (hpass : passphrase ≠ "") :
    (decFn validator key ≠ .ok "RISU-VALID" →
      unlockProcess deriveFn decFn passphrase (.ok (some salt)) (.ok me) keystore =
        (keystore, .ok false)) ∧
    ((unlockProcess deriveFn decFn passphrase (.ok (some salt)) (.ok me)
        keystore).1 = some key ∧
      (unlockProcess deriveFn decFn passphrase (.ok (some salt)) (.ok me)
        keystore).2 = .ok true ↔
      decFn validator key = .ok "RISU-VALID") := by
  constructor
  · intro hmismatch
    cases hdec : decFn validator key with
    | error e => simp only [unlockProcess, if_neg hpass, hderive, hvalidator, hdec]
    | ok decrypted =>
      have hne : decrypted ≠ "RISU-VALID" := by
        intro h
        exact hmismatch (by rw [hdec, h])
      simp only [unlockProcess, if_neg hpass, hderive, hvalidator, hdec, if_neg hne]
  · cases hdec : decFn validator key with
    | error e =>
      simp only [unlockProcess, if_neg hpass, hderive, hvalidator, hdec]
      constructor
      · rintro ⟨h1, h2⟩
        cases h2
      · intro h
        cases h
    | ok decrypted =>
      by_cases hsent : decrypted = "RISU-VALID"
      · subst hsent
        simp [unlockProcess, if_neg hpass, hderive, hvalidator, hdec]
      · simp only [unlockProcess, if_neg hpass, hderive, hvalidator, hdec,
          if_neg hsent]
        constructor
        · rintro ⟨h1, h2⟩
          cases h2
        · intro h
          exact absurd (Except.ok.inj h) hsent

/-- Closed instance of the validator-mismatch theorem: a decrypt function
that yields a wrong sentinel leaves a populated KeyStore untouched and
reports `Ok(false)`. -/
theorem unlock_no_install_witness :
    unlockProcess (fun _ _ => .ok [9]) (fun _ _ => .ok "WRONG") "pw"
        (.ok (some "salt"))
        (.ok { plan := "pro", subscription_status := "active",
               subscription_end_date := none, encryption_salt := some "salt",
               encryption_validator := some "v" }) (some [1]) =
      (some [1], .ok false) :=
  (unlock_no_install_on_validator_mismatch (fun _ _ => .ok [9])
    (fun _ _ => .ok "WRONG") "pw" "salt" [9]
    { plan := "pro", subscription_status := "active",
      subscription_end_date := none, encryption_salt := some "salt",
      encryption_validator := some "v" } "v" (some [1]) rfl rfl
    (by decide)).1 (fun h => absurd (Except.ok.inj h) (by decide))

/-- **C10.** If `/auth/me` fails during unlock, `unlock_process` skips
validator verification entirely: it installs the derived key into the
KeyStore and returns `Ok(true)`, so the passphrase is never checked against
the server-held validator. -/
theorem unlock_installs_on_me_error (deriveFn : String → String → Except Unit Key)
    (decFn : String → Key → Except CryptoErr String)
    (passphrase salt : String) (key : Key) (e : Unit) (keystore : Option Key)
    (hderive : deriveFn passphrase salt = .ok key)
    (hpass : passphrase ≠ "") :
    unlockProcess deriveFn decFn passphrase (.ok (some salt)) (.error e) keystore =
      (some key, .ok true) := by
  simp only [unlockProcess, if_neg hpass, hderive]

/-- Closed instance: with a failing `/auth/me`, even a decrypt function
that would always reject installs the key and reports success. -/
theorem unlock_installs_on_me_error_witness :
    unlockProcess (fun _ _ => .ok [9]) (fun _ _ => .error .integrity) "pw"
        (.ok (some "salt")) (.error ()) none = (some [9], .ok true) :=
  unlock_installs_on_me_error (fun _ _ => .ok [9]) (fun _ _ => .error .integrity)
    "pw" "salt" [9] () none rfl (by decide)

/-! ## C8: bounded, terminating pull with the documented stop conditions -/

/-- Adjacent-pages relation on a pull trace: each non-final page was not a
fixed point, had `has_more = true`, and the next page was queried at its
`next_cursor`. -/
def chainOk : List (String × PullResult) → Bool
  | (c₁, r₁) :: (c₂, r₂) :: rest =>
      !(r₁.next_cursor == c₁) && r₁.has_more && (c₂ == r₁.next_cursor) &&
        chainOk ((c₂, r₂) :: rest)
  | _ => true

/-- The first page (if any) was queried at the given cursor. -/
def chainStart (cur : String) : List (String × PullResult) → Bool
  | [] => true
  | (c, _) :: _ => c == cur

/-- The final page of the trace satisfies a stop condition: fixed-point
cursor or `has_more = false`. -/
def lastStop : List (String × PullResult) → Bool
  | [] => true
  | [(c, r)] => (r.next_cursor == c) || !r.has_more
  | _ :: rest => lastStop rest

theorem pullGo_spec (decFn : String → Key → Except CryptoErr String)
    (keyOpt : Option Key) (pages : Nat → Except Unit PullResult) :
    ∀ (fuel call : Nat) (cur : String) (st : DbState),
      (pullGo decFn keyOpt pages fuel call cur st).trace.length ≤ fuel ∧
      chainStart cur (pullGo decFn keyOpt pages fuel call cur st).trace = true ∧
      chainOk (pullGo decFn keyOpt pages fuel call cur st).trace = true ∧
      ((pullGo decFn keyOpt pages fuel call cur st).err = false →
        (pullGo decFn keyOpt pages fuel call cur st).trace.length < fuel →
        lastStop (pullGo decFn keyOpt pages fuel call cur st).trace = true) ∧
      (0 < fuel → (pullGo decFn keyOpt pages fuel call cur st).err = false →
        (pullGo decFn keyOpt pages fuel call cur st).trace ≠ []) := by
  intro fuel
  induction fuel with
  | zero =>
    intro call cur st
    refine ⟨Nat.le_refl 0, rfl, rfl, ?_, ?_⟩
    · intro _ h
      exact absurd h (by simp [pullGo])
    · intro h
      exact absurd h (by simp)
  | succ fuel ih =>
    intro call cur st
    cases hpage : pages call with
    | error e =>
      refine ⟨?_, ?_, ?_, ?_, ?_⟩ <;>
        simp [pullGo, hpage, chainStart, chainOk, lastStop]
    | ok res =>
      by_cases hfix : res.next_cursor = cur
      · refine ⟨?_, ?_, ?_, ?_, ?_⟩ <;>
          simp [pullGo, hpage, hfix, chainStart, chainOk, lastStop]
      · by_cases hmore : res.has_more = false
        · refine ⟨?_, ?_, ?_, ?_, ?_⟩ <;>
            simp [pullGo, hpage, hfix, hmore, chainStart, chainOk, lastStop]
        · obtain ⟨ihlen, ihstart, ihchain, ihstop, ihne⟩ :=
            ih (call + 1) res.next_cursor (pullStep decFn keyOpt res st)
          set o := pullGo decFn keyOpt pages fuel (call + 1) res.next_cursor
            (pullStep decFn keyOpt res st) with ho
          have hgo : pullGo decFn keyOpt pages (fuel + 1) call cur st =
              ⟨o.db, (cur, res) :: o.trace, o.err⟩ := by
            rw [ho]
            simp [pullGo, hpage, hfix, hmore]
          rw [hgo]
          refine ⟨?_, ?_, ?_, ?_, ?_⟩
          · show ((cur, res) :: o.trace).length ≤ fuel + 1
            simpa using Nat.succ_le_succ ihlen
          · show chainStart cur ((cur, res) :: o.trace) = true
            simp [chainStart]
          · show chainOk ((cur, res) :: o.trace) = true
            cases htr : o.trace with
            | nil => simp [chainOk]
            | cons hd tl =>
              obtain ⟨c₂, r₂⟩ := hd
              rw [htr] at ihstart ihchain
              have hc₂ : c₂ = res.next_cursor := by
                simpa [chainStart] using ihstart
              simp only [chainOk, Bool.and_eq_true, beq_iff_eq, Bool.not_eq_true']
              refine ⟨⟨⟨by simpa using hfix, by simpa using hmore⟩, hc₂⟩, ?_⟩
              simpa [chainOk] using ihchain
          · show o.err = false → ((cur, res) :: o.trace).length < fuel + 1 →
              lastStop ((cur, res) :: o.trace) = true
            intro herr hlen
            cases htr : o.trace with
            | nil =>
              cases fuel with
              | zero =>
                rw [htr] at hlen
                simp at hlen
              | succ fuel' =>
                exact absurd htr (ihne (Nat.succ_pos fuel') herr)
            | cons hd tl =>
              have hstop : lastStop ((cur, res) :: hd :: tl) = lastStop (hd :: tl) := by
                obtain ⟨c₂, r₂⟩ := hd
                rfl
              rw [hstop]
              have hlen' : (hd :: tl).length < fuel := by
                rw [htr] at hlen
                simpa using Nat.lt_of_succ_lt_succ hlen
              have hst := ihstop herr
              rw [htr] at hst
              exact hst hlen'
          · show 0 < fuel + 1 → o.err = false → (cur, res) :: o.trace ≠ []
            intro _ _
            simp

/-- **C8.** Pull termination and paging: for every server script the pull
loop records at most 100 pages; the first page is queried at the stored
cursor; every non-final page had `has_more = true` and a moving cursor, and
the next page is queried at its `next_cursor`; and when pull completes
without error in fewer than 100 pages, the final page hit a stop condition
(`next_cursor` fixed point or `has_more = false`). -/
theorem pull_pages_bounded (decFn : String → Key → Except CryptoErr String)
    (keyOpt : Option Key) (checkRes : Except Unit String)
    (pages : Nat → Except Unit PullResult) (st : DbState) :
    (pull decFn keyOpt checkRes pages st).trace.length ≤ 100 ∧
    chainStart (getCursor st) (pull decFn keyOpt checkRes pages st).trace = true ∧
    chainOk (pull decFn keyOpt checkRes pages st).trace = true ∧
    ((pull decFn keyOpt checkRes pages st).err = false →
      (pull decFn keyOpt checkRes pages st).trace.length < 100 →
      lastStop (pull decFn keyOpt checkRes pages st).trace = true) := by
  unfold pull
  cases checkRes with
  | error e => exact ⟨by simp, rfl, rfl, fun _ _ => rfl⟩
  | ok server_time =>
    cases hle : strLe server_time (getCursor st) with
    | true =>
      simp only [hle, if_pos]
      exact ⟨by simp, rfl, rfl, fun _ _ => rfl⟩
    | false =>
      simp only [hle, Bool.false_eq_true, if_false]
      obtain ⟨h1, h2, h3, h4, _⟩ :=
        pullGo_spec decFn keyOpt pages 100 0 (getCursor st) st
      exact ⟨h1, h2, h3, h4⟩

/-- Closed instance of the C8 theorem: a two-page server script that stops
via `has_more = false`. -/
theorem pull_pages_bounded_witness :
    (pull (fun _ _ => .error .integrity) none (.ok "2024")
        (fun _ => .ok ⟨[], true, "2025"⟩)
        ⟨[], []⟩).trace.length ≤ 100 ∧
    ((pull (fun _ _ => .error .integrity) none (.ok "2024")
        (fun _ => .ok ⟨[], true, "2025"⟩)
        ⟨[], []⟩).err = false →
      (pull (fun _ _ => .error .integrity) none (.ok "2024")
        (fun _ => .ok ⟨[], true, "2025"⟩)
        ⟨[], []⟩).trace.length < 100 →
      lastStop (pull (fun _ _ => .error .integrity) none (.ok "2024")
        (fun _ => .ok ⟨[], true, "2025"⟩) ⟨[], []⟩).trace = true) := by
  have h := pull_pages_bounded (fun _ _ => .error .integrity) none (.ok "2024")
    (fun _ => .ok ⟨[], true, "2025"⟩) ⟨[], []⟩
  exact ⟨h.1, h.2.2.2⟩

/-! ## C6: cursor monotonicity

The code writes the server-supplied `next_cursor` without comparing it to
the stored cursor, so monotonicity fails against a server that moves the
cursor backwards; it holds whenever every `next_cursor` the server returns
is at least the cursor stored before the pull. -/

/-- **C6 counterexample.** A successful pull whose single page carries
`next_cursor = "1999"` drops the stored cursor from `"2000"` to `"1999"`:
the claim "after any successful pull the stored `last_synced_at` is ≥ its
previous value, whatever `next_cursor` values the server returns" is false. -/
theorem pull_cursor_monotonic_counterexample :
    (pull (fun _ _ => .ok "pt") (some []) (.ok "2001")
        (fun _ => .ok ⟨[⟨"n1", "c", "2001", 0, 0, 1⟩], false, "1999"⟩)
        ⟨[], [("last_synced_at", "2000")]⟩).err = false ∧
    strLt (getCursor (pull (fun _ _ => .ok "pt") (some []) (.ok "2001")
        (fun _ => .ok ⟨[⟨"n1", "c", "2001", 0, 0, 1⟩], false, "1999"⟩)
        ⟨[], [("last_synced_at", "2000")]⟩).db)
      (getCursor ⟨[], [("last_synced_at", "2000")]⟩) = true := by
  decide

theorem pullStep_cursor (decFn : String → Key → Except CryptoErr String)
    (keyOpt : Option Key) (res : PullResult) (st : DbState) :
    getCursor (pullStep decFn keyOpt res st) = res.next_cursor ∨
    getCursor (pullStep decFn keyOpt res st) = getCursor st := by
  unfold pullStep
  by_cases hd : (decryptChanges decFn keyOpt res.changes).isEmpty
  · by_cases hc : 0 < res.changes.length
    · left
      simp [hd, hc, getCursor]
    · right
      simp [hd, hc]
  · left
    simp [hd, pullApplyAll, getCursor]

theorem pullGo_cursor_ge (decFn : String → Key → Except CryptoErr String)
    (keyOpt : Option Key) (pages : Nat → Except Unit PullResult) (c0 : String)
    (hserver : ∀ n r, pages n = .ok r → strLt r.next_cursor c0 = false) :
    ∀ (fuel call : Nat) (cur : String) (st : DbState),
      strLt (getCursor st) c0 = false →
      strLt (getCursor (pullGo decFn keyOpt pages fuel call cur st).db) c0 = false := by
  intro fuel
  induction fuel with
  | zero => intro call cur st hst; exact hst
  | succ fuel ih =>
    intro call cur st hst
    cases hpage : pages call with
    | error e => simpa [pullGo, hpage] using hst
    | ok res =>
      have hstep : strLt (getCursor (pullStep decFn keyOpt res st)) c0 = false := by
        rcases pullStep_cursor decFn keyOpt res st with h | h
        · rw [h]
          exact hserver call res hpage
        · rw [h]
          exact hst
      by_cases hfix : res.next_cursor = cur
      · simpa [pullGo, hpage, hfix] using hstep
      · by_cases hmore : res.has_more = false
        · simpa [pullGo, hpage, hfix, hmore] using hstep
        · have hrec := ih (call + 1) res.next_cursor (pullStep decFn keyOpt res st) hstep
          simpa [pullGo, hpage, hfix, hmore] using hrec

/-- **C6 (amended).** Cursor monotonicity holds for every successful pull
provided the server is well-behaved: whenever every `next_cursor` value
returned by `/sync/pull` during the run is ≥ the cursor stored before the
pull, the stored `last_synced_at` after the pull is ≥ its value before. -/
theorem pull_cursor_monotonic_amended (decFn : String → Key → Except CryptoErr String)
    (keyOpt : Option Key) (checkRes : Except Unit String)
    (pages : Nat → Except Unit PullResult) (st : DbState)
    (hserver : ∀ n r, pages n = .ok r → strLe (getCursor st) r.next_cursor = true)
    (hok : (pull decFn keyOpt checkRes pages st).err = false) :
    strLe (getCursor st) (getCursor (pull decFn keyOpt checkRes pages st).db) = true := by
  rw [strLe_eq_true_iff]
  have hserver' : ∀ n r, pages n = .ok r → strLt r.next_cursor (getCursor st) = false :=
    fun n r h => (strLe_eq_true_iff _ _).mp (hserver n r h)
  unfold pull
  cases checkRes with
  | error e => exact strLt_irrefl _
  | ok server_time =>
    cases hle : strLe server_time (getCursor st) with
    | true =>
      simp only [hle, if_pos]
      exact strLt_irrefl _
    | false =>
      simp only [hle, Bool.false_eq_true, if_false]
      exact pullGo_cursor_ge decFn keyOpt pages (getCursor st) hserver' 100 0
        (getCursor st) st (strLt_irrefl _)

/-- Closed instance of the amended C6 theorem: a well-behaved single-page
server advances the cursor, and the stored cursor does not regress. -/
theorem pull_cursor_monotonic_amended_witness :
    strLe (getCursor (⟨[], [("last_synced_at", "2000")]⟩ : DbState))
      (getCursor (pull (fun _ _ => .ok "pt") (some []) (.ok "2001")
        (fun _ => .ok ⟨[⟨"n1", "c", "2001", 0, 0, 1⟩], false, "2001"⟩)
        ⟨[], [("last_synced_at", "2000")]⟩).db) = true :=
  pull_cursor_monotonic_amended (fun _ _ => .ok "pt") (some []) (.ok "2001")
    (fun _ => .ok ⟨[⟨"n1", "c", "2001", 0, 0, 1⟩], false, "2001"⟩)
    ⟨[], [("last_synced_at", "2000")]⟩
    (by intro n r h; cases h; decide) (by decide)

/-! ## C5: free-plan cleanup

`try_sync` deletes the salt, the passphrase file and the KeyStore contents
only inside `if self.repo.get_salt().is_some()` (sync.rs:370-378); with no
local salt, a leftover passphrase file or installed key survives. -/

/-- **C5 counterexample.** A sync attempt observing plan=`free` from a
state with no local salt but a passphrase file on disk and a key in the
KeyStore leaves both in place: the claim that after any such attempt the
passphrase file is absent and the KeyStore empty is false. -/
theorem free_cleanup_counterexample :
    (trySync (fun _ _ => .error .integrity) (fun _ _ => .error ()) "t"
        (.ok ⟨"free", "none", none, none, none⟩) (.error ()) (fun _ => .error ())
        (fun _ => .fail) ⟨⟨[], []⟩, true, some []⟩).st.passFile = true ∧
    (trySync (fun _ _ => .error .integrity) (fun _ _ => .error ()) "t"
        (.ok ⟨"free", "none", none, none, none⟩) (.error ()) (fun _ => .error ())
        (fun _ => .fail) ⟨⟨[], []⟩, true, some []⟩).st.keystore = some [] := by
  decide

/-- **C5 (amended).** After a sync attempt that observes plan=`free`, the
`encryption_salt` KV entry is always absent; but the passphrase file and
the KeyStore are cleared only when a local salt was present — when it was
absent, the whole app state (passphrase file and KeyStore included) is left
unchanged. -/
theorem free_cleanup_amended (decFn : String → Key → Except CryptoErr String)
    (encFn : String → Key → Except Unit String) (token : String)
    (checkRes : Except Unit String) (pages : Nat → Except Unit PullResult)
    (pushRes : Nat → PushOutcome) (app : AppState) (me : MeResp)
    (htoken : token ≠ "") (hfree : planIsFree me.plan = true) :
    alGet "encryption_salt"
      (trySync decFn encFn token (.ok me) checkRes pages pushRes app).st.db.kv = none ∧
    ((alGet "encryption_salt" app.db.kv).isSome = true →
      (trySync decFn encFn token (.ok me) checkRes pages pushRes app).st.passFile
          = false ∧
      (trySync decFn encFn token (.ok me) checkRes pages pushRes app).st.keystore
          = none) ∧
    ((alGet "encryption_salt" app.db.kv).isSome = false →
      (trySync decFn encFn token (.ok me) checkRes pages pushRes app).st = app) := by
  cases hsalt : (alGet "encryption_salt" app.db.kv).isSome with
  | true =>
    have hout : trySync decFn encFn token (.ok me) checkRes pages pushRes app =
        ⟨{ db := { app.db with kv := alDel "encryption_salt" app.db.kv },
           passFile := false, keystore := none }, [.Offline], []⟩ := by
      simp [trySync, if_neg htoken, hfree, hsalt]
    rw [hout]
    exact ⟨alGet_alDel_self _ _, fun _ => ⟨rfl, rfl⟩, fun h => by simp at h⟩
  | false =>
    have hnone : alGet "encryption_salt" app.db.kv = none := by
      cases h : alGet "encryption_salt" app.db.kv with
      | none => rfl
      | some v => rw [h] at hsalt; simp at hsalt
    have hout : trySync decFn encFn token (.ok me) checkRes pages pushRes app =
        ⟨app, [.Offline], []⟩ := by
      simp [trySync, if_neg htoken, hfree, hsalt]
    rw [hout]
    exact ⟨hnone, fun h => by simp at h, fun _ => rfl⟩

/-- Closed instance of the amended C5 theorem: with a local salt present,
the free-plan branch removes the salt and clears passphrase and KeyStore. -/
theorem free_cleanup_amended_witness :
    alGet "encryption_salt"
      (trySync (fun _ _ => .error .integrity) (fun _ _ => .error ()) "t"
        (.ok ⟨"free", "none", none, none, none⟩) (.error ()) (fun _ => .error ())
        (fun _ => .fail)
        ⟨⟨[], [("encryption_salt", "s")]⟩, true, some []⟩).st.db.kv = none ∧
    ((alGet "encryption_salt"
        ((⟨⟨[], [("encryption_salt", "s")]⟩, true, some []⟩ : AppState)).db.kv).isSome
          = true →
      (trySync (fun _ _ => .error .integrity) (fun _ _ => .error ()) "t"
        (.ok ⟨"free", "none", none, none, none⟩) (.error ()) (fun _ => .error ())
        (fun _ => .fail)
        ⟨⟨[], [("encryption_salt", "s")]⟩, true, some []⟩).st.passFile = false ∧
      (trySync (fun _ _ => .error .integrity) (fun _ _ => .error ()) "t"
        (.ok ⟨"free", "none", none, none, none⟩) (.error ()) (fun _ => .error ())
        (fun _ => .fail)
        ⟨⟨[], [("encryption_salt", "s")]⟩, true, some []⟩).st.keystore = none) := by
  have h := free_cleanup_amended (fun _ _ => .error .integrity) (fun _ _ => .error ())
    "t" (.error ()) (fun _ => .error ()) (fun _ => .fail)
    ⟨⟨[], [("encryption_salt", "s")]⟩, true, some []⟩
    ⟨"free", "none", none, none, none⟩ (by decide) (by decide)
  exact ⟨h.1, h.2.1⟩

/-! ## C7: unknown plan strings

The plan gate is `me.plan.trim().eq_ignore_ascii_case("free")` in
`try_sync` and `plan == "free"` in `push`: any plan string other than
`free` — `pro`, `dev`, but equally an unknown value — takes the paid
path. -/

/-- **C7 counterexample.** With plan `"plus"` (not one of `free`, `pro`,
`dev`), salt and key present and one unsynced note, the sync attempt emits
`Syncing`/`Synced` and pushes the note: the claim that unknown plan values
are treated as `free` (sync disabled, nothing pushed) is false. -/
theorem unknown_plan_counterexample :
    (trySync (fun _ _ => .error .integrity) (fun c _ => .ok c) "t"
        (.ok ⟨"plus", "active", none, none, none⟩) (.ok "1900-01-01T00:00:00Z")
        (fun _ => .error ()) (fun _ => .ok)
        ⟨⟨[("n1", ⟨"hello", "2024", 0, 0, 0⟩)], [("encryption_salt", "s")]⟩,
          false, some []⟩).pushed ≠ [] ∧
    (trySync (fun _ _ => .error .integrity) (fun c _ => .ok c) "t"
        (.ok ⟨"plus", "active", none, none, none⟩) (.ok "1900-01-01T00:00:00Z")
        (fun _ => .error ()) (fun _ => .ok)
        ⟨⟨[("n1", ⟨"hello", "2024", 0, 0, 0⟩)], [("encryption_salt", "s")]⟩,
          false, some []⟩).events = [.Syncing, .Synced] := by
  decide

/-- **C7 (amended).** Any plan string whose trimmed, ASCII-case-folded form
is not `free` is treated as paid, not free: with a local salt and an
installed key the sync attempt emits `Syncing` first and runs the full
pull+push pipeline (`doSync`) under that plan string — and such a plan is
also not gated off by `push`'s `plan == "free"` check. -/
theorem unknown_plan_treated_as_paid (decFn : String → Key → Except CryptoErr String)
    (encFn : String → Key → Except Unit String) (token : String)
    (checkRes : Except Unit String) (pages : Nat → Except Unit PullResult)
    (pushRes : Nat → PushOutcome) (app : AppState) (me : MeResp)
    (salt : String) (key : Key)
    (htoken : token ≠ "") (hnotfree : planIsFree me.plan = false)
    (hsalt : alGet "encryption_salt" app.db.kv = some salt)
    (hkey : app.keystore = some key) :
    (trySync decFn encFn token (.ok me) checkRes pages pushRes app).events.head? =
        some .Syncing ∧
    (trySync decFn encFn token (.ok me) checkRes pages pushRes app).st.db =
        (doSync decFn encFn app.keystore checkRes pages pushRes me.plan app.db).1 ∧
    (trySync decFn encFn token (.ok me) checkRes pages pushRes app).pushed =
        (doSync decFn encFn app.keystore checkRes pages pushRes me.plan app.db).2.1 ∧
    me.plan ≠ "free" := by
  have hplanne : me.plan ≠ "free" := by
    intro h
    rw [h] at hnotfree
    exact absurd hnotfree (by decide)
  have hout : trySync decFn encFn token (.ok me) checkRes pages pushRes app =
      (match doSync decFn encFn app.keystore checkRes pages pushRes me.plan app.db with
       | (db', pushed, none) =>
           ⟨{ app with db := db' }, [.Syncing, .Synced], pushed⟩
       | (db', pushed, some .paymentRequired) =>
           ⟨{ app with db := db' }, [.Syncing, .PaymentRequired], pushed⟩
       | (db', pushed, some .other) =>
           ⟨{ app with db := db' }, [.Syncing, .Error], pushed⟩) := by
    simp [trySync, if_neg htoken, hnotfree, hsalt, hkey]
  rcases hds : doSync decFn encFn app.keystore checkRes pages pushRes me.plan app.db
    with ⟨db', pushed, e⟩
  rw [hds] at hout
  cases e with
  | none => rw [hout]; exact ⟨rfl, rfl, rfl, hplanne⟩
  | some pe => cases pe with
    | paymentRequired => rw [hout]; exact ⟨rfl, rfl, rfl, hplanne⟩
    | other => rw [hout]; exact ⟨rfl, rfl, rfl, hplanne⟩

/-- Closed instance of the amended C7 theorem at plan `"plus"`. -/
theorem unknown_plan_treated_as_paid_witness :
    (trySync (fun _ _ => .error .integrity) (fun c _ => .ok c) "t"
        (.ok ⟨"plus", "active", none, none, none⟩) (.ok "1900-01-01T00:00:00Z")
        (fun _ => .error ()) (fun _ => .ok)
        ⟨⟨[("n1", ⟨"hello", "2024", 0, 0, 0⟩)], [("encryption_salt", "s")]⟩,
          false, some []⟩).events.head? = some .Syncing ∧
    (trySync (fun _ _ => .error .integrity) (fun c _ => .ok c) "t"
        (.ok ⟨"plus", "active", none, none, none⟩) (.ok "1900-01-01T00:00:00Z")
        (fun _ => .error ()) (fun _ => .ok)
        ⟨⟨[("n1", ⟨"hello", "2024", 0, 0, 0⟩)], [("encryption_salt", "s")]⟩,
          false, some []⟩).pushed =
      (doSync (fun _ _ => .error .integrity) (fun c _ => .ok c) (some [])
        (.ok "1900-01-01T00:00:00Z") (fun _ => .error ()) (fun _ => .ok) "plus"
        ⟨[("n1", ⟨"hello", "2024", 0, 0, 0⟩)], [("encryption_salt", "s")]⟩).2.1 := by
  have h := unknown_plan_treated_as_paid (fun _ _ => .error .integrity)
    (fun c _ => .ok c) "t" (.ok "1900-01-01T00:00:00Z") (fun _ => .error ())
    (fun _ => .ok)
    ⟨⟨[("n1", ⟨"hello", "2024", 0, 0, 0⟩)], [("encryption_salt", "s")]⟩,
      false, some []⟩
    ⟨"plus", "active", none, none, none⟩ "s" [] (by decide) (by decide) (by decide) rfl
  exact ⟨h.1, h.2.2.1⟩

end Risu
